import Mathlib

/-!
# Verification of the fractal computation engine of `fractal_rs`

A shallow embedding, in Lean 4, of the core of the `fractal_rs` repository
(`src/mandelbrot.rs`, the escape-to-color mapping of `src/main.rs`, and the
palette data model of `src/palette.rs`), together with theorems settling the
specification claims about it.

Modelling conventions:

* `f64` values are modelled as exact rationals (`ℚ`): the embedding performs
  the arithmetic of the source exactly, idealizing IEEE-754 rounding.
* `Complex64` (from `num_complex`) is a pair of scalars with the usual
  complex addition and multiplication.
* The test `z.abs() < 2.0` of the source, where `abs` is the Euclidean norm
  `sqrt(re² + im²)`, is modelled as `normSq z < 4`: both sides of the source
  comparison are non-negative, so squaring is an equivalence, and this keeps
  the embedding inside `ℚ`.
* `u32`/`usize` counters are modelled as `ℕ`.  The only increments performed
  (`i += 1` below `max_iterations`, loop counters below `width`/`height`)
  cannot overflow `u32`/`usize`, so no wrap-around modelling is needed.
* Rust `panic!` sites and out-of-bounds vector indexing are modelled by
  returning `none` from an `Option`-valued function.
* `rayon`'s `par_iter_mut().enumerate().for_each` writes each row
  independently; it is modelled as a sequential traversal of the row list,
  which is observationally the same because the per-row work items are
  pure functions of the row index and the shared read-only state.
-/

/-- Embedding of `num_complex::Complex64`: a complex number with `f64`
(modelled : `ℚ`) real and imaginary parts. -/
structure Complex64 where
  re : ℚ
  im : ℚ
deriving DecidableEq, Repr

namespace Complex64

/-- Complex addition, componentwise. -/
def add (a b : Complex64) : Complex64 := ⟨a.re + b.re, a.im + b.im⟩

/-- Complex multiplication: `(a+bi)(c+di) = (ac-bd) + (ad+bc)i`. -/
def mul (a b : Complex64) : Complex64 :=
  ⟨a.re * b.re - a.im * b.im, a.re * b.im + a.im * b.re⟩

instance : Add Complex64 := ⟨add⟩
instance : Mul Complex64 := ⟨mul⟩

@[simp] theorem add_re (a b : Complex64) : (a + b).re = a.re + b.re := rfl
@[simp] theorem add_im (a b : Complex64) : (a + b).im = a.im + b.im := rfl
@[simp] theorem mul_re (a b : Complex64) : (a * b).re = a.re * b.re - a.im * b.im := rfl
@[simp] theorem mul_im (a b : Complex64) : (a * b).im = a.re * b.im + a.im * b.re := rfl

@[simp] theorem mk_add_mk (a b c d : ℚ) :
    (⟨a, b⟩ : Complex64) + ⟨c, d⟩ = ⟨a + c, b + d⟩ := rfl
@[simp] theorem mk_mul_mk (a b c d : ℚ) :
    (⟨a, b⟩ : Complex64) * ⟨c, d⟩ = ⟨a * c - b * d, a * d + b * c⟩ := rfl

/-- The squared Euclidean norm `re² + im²`.  The source's escape test
`z.abs() < 2.0` (with `abs` the Euclidean norm) is modelled as
`normSq z < 4`, an equivalent comparison between non-negative quantities. -/
def normSq (z : Complex64) : ℚ := z.re * z.re + z.im * z.im

@[ext] theorem ext {a b : Complex64} (hre : a.re = b.re) (him : a.im = b.im) :
    a = b := by
  cases a; cases b; cases hre; cases him; rfl

/-- Complex conjugation (used to state the real-axis symmetry claim). -/
def conj (z : Complex64) : Complex64 := ⟨z.re, -z.im⟩

@[simp] theorem conj_re (z : Complex64) : (conj z).re = z.re := rfl
@[simp] theorem conj_im (z : Complex64) : (conj z).im = -z.im := rfl

theorem normSq_conj (z : Complex64) : normSq (conj z) = normSq z := by
  simp only [normSq, conj]
  ring

theorem conj_mul_add (z c : Complex64) :
    conj z * conj z + conj c = conj (z * z + c) := by
  apply ext
  · show z.re * z.re - -z.im * -z.im + c.re = z.re * z.re - z.im * z.im + c.re
    ring
  · show z.re * -z.im + -z.im * z.re + -c.im = -(z.re * z.im + z.im * z.re + c.im)
    ring

end Complex64

open Complex64 (normSq conj)

/-- Embedding of `FractalSample`: per-cell result with the final complex
value `z` and the iteration count `escape` at loop exit. -/
structure FractalSample where
  z : Complex64
  escape : ℕ
deriving DecidableEq, Repr

/-- The zeroed sample `FractalSample{z: Complex64::new(0.,0.), escape: 0}`
used to fill newly allocated rows. -/
def zeroSample : FractalSample := ⟨⟨0, 0⟩, 0⟩

/-- The loop body of `mandelbrot_f`, by structural recursion on the fuel
`max_iterations - i`: the `while i < max_iterations && z.abs() < 2.0` loop
of the source increments `i` on every pass, so it runs at most
`max_iterations - i` times; each unfolding checks the source's full loop
condition, so with fuel `max_iterations - i` this computes exactly the
loop's exit state (see `mandelbrotGo_eq_whileLoopGo`). -/
def mandelbrotGo (c : Complex64) (max_iterations : ℕ) :
    ℕ → Complex64 → ℕ → FractalSample
  | 0, z, i => ⟨z, i⟩
  | fuel + 1, z, i =>
      if i < max_iterations ∧ normSq z < 4 then
        mandelbrotGo c max_iterations fuel (z * z + c) (i + 1)
      else
        ⟨z, i⟩

/-- Embedding of `mandelbrot_f(c, z0, cur_iterations, max_iterations)`
(src/mandelbrot.rs:74-86): starting from `z = z0`, `i = cur_iterations`,
run `while i < max_iterations && z.abs() < 2.0 { z = z*z + c; i += 1; }`
and return `FractalSample { z, escape: i }`. -/
def mandelbrot_f (c z0 : Complex64) (cur_iterations max_iterations : ℕ) :
    FractalSample :=
  mandelbrotGo c max_iterations (max_iterations - cur_iterations) z0 cur_iterations

/-- Reference while-loop, written directly from the spec's description of the
algorithm: "starting from `z = z0`, repeatedly apply `z ← z*z + c` while
`|z| < 2.0` and the iteration count is below `max_iter`", by well-founded
recursion on the loop measure. -/
def whileLoopGo (c : Complex64) (max_iterations : ℕ) (z : Complex64) (i : ℕ) :
    FractalSample :=
  if h : i < max_iterations ∧ normSq z < 4 then
    whileLoopGo c max_iterations (z * z + c) (i + 1)
  else
    ⟨z, i⟩
termination_by max_iterations - i
decreasing_by omega

/-- The spec's loop, starting at `z = z0` and `i = start_iter`. -/
def whileLoop (c z0 : Complex64) (start_iter max_iterations : ℕ) : FractalSample :=
  whileLoopGo c max_iterations z0 start_iter

/-- Embedding of `FractalType` (src/mandelbrot.rs:4-7). -/
inductive FractalType where
  | Mandelbrot : FractalType
  | Julia : Complex64 → FractalType
deriving DecidableEq, Repr

/-- Embedding of `State` (src/mandelbrot.rs:8-15): the viewport and
iteration configuration. -/
structure State where
  width : ℕ
  height : ℕ
  max_iterations : ℕ
  scale : ℚ
  center : Complex64
  fractal_type : FractalType
deriving DecidableEq, Repr

namespace State

/-- Embedding of `State::aspect` (src/mandelbrot.rs:18-20): `width as f64 / height as f64`. -/
def aspect (s : State) : ℚ := (s.width : ℚ) / (s.height : ℚ)

/-- Embedding of `State::increments` (src/mandelbrot.rs:22-25): the per-pixel steps
`(scale / width, (scale / aspect) / height)`. -/
def increments (s : State) : ℚ × ℚ :=
  (s.scale / (s.width : ℚ), (s.scale / s.aspect) / (s.height : ℚ))

end State

/-- A row of samples (`DataRow`, src/mandelbrot.rs:28). -/
abbrev DataRow := List FractalSample

/-- Embedding of `Data` (src/mandelbrot.rs:30-33): the configuration plus
the row-major sample grid. -/
structure Data where
  state : State
  fractal_data : List DataRow
deriving DecidableEq, Repr

namespace Data

/-- Embedding of `Data::new` (src/mandelbrot.rs:36-51): `panic!` on
`width == 0 || height == 0` is modelled as `none`; otherwise the grid is
`height` rows of `width` zeroed samples (the source builds it by a push
loop over `0..height`, resizing each row to `width` copies of the zero
sample). -/
def new (state : State) : Option Data :=
  if state.width = 0 ∨ state.height = 0 then
    none
  else
    some ⟨state, List.replicate state.height (List.replicate state.width zeroSample)⟩

/-- Embedding of `Data::resize` (src/mandelbrot.rs:53-65): same check and
the same freshly zeroed grid, built from `self.state` alone and replacing
`self.fractal_data` wholesale. -/
def resize (d : Data) : Option Data :=
  if d.state.width = 0 ∨ d.state.height = 0 then
    none
  else
    some ⟨d.state,
      List.replicate d.state.height (List.replicate d.state.width zeroSample)⟩

end Data

/-- Modelling of `data_row[x as usize] = v`: vector indexed assignment, which panics
(here: `none`) when `x` is out of bounds. -/
def writeAt (row : List FractalSample) (x : ℕ) (v : FractalSample) :
    Option (List FractalSample) :=
  if x < row.length then some (row.set x v) else none

/-- Common body of `mandelbrot_row` (src/mandelbrot.rs:88-96) and
`julia_row` (src/mandelbrot.rs:98-105), which differ only in the constant
passed to `mandelbrot_f`: `cOf z` is `c` for the sample at point `z`
(`mandelbrot_row` sets `let c = z`; `julia_row` uses its fixed argument).
The `for x in 0..state.width` loop is structural recursion on the
remaining trip count `n`, with `x` the current index and `x_cur` the
current abscissa, advanced by `x_incr` after each column. -/
def fractalRowGo (cOf : Complex64 → Complex64) (y_cur x_incr : ℚ)
    (max_iterations : ℕ) :
    ℕ → ℕ → ℚ → List FractalSample → Option (List FractalSample)
  | 0, _, _, row => some row
  | n + 1, x, x_cur, row =>
      let z : Complex64 := ⟨x_cur, y_cur⟩
      match writeAt row x (mandelbrot_f (cOf z) z 0 max_iterations) with
      | none => none
      | some row' => fractalRowGo cOf y_cur x_incr max_iterations n (x + 1) (x_cur + x_incr) row'

/-- Embedding of `mandelbrot_row` (src/mandelbrot.rs:88-96): for each
`x in 0..state.width`, let `z = Complex64::new(x_cur, y_cur)`, `c = z`,
write `mandelbrot_f(c, z, 0, state.max_iterations)` into `data_row[x]`,
then advance `x_cur` by `x_incr`. -/
def mandelbrot_row (x_cur y_cur x_incr : ℚ) (state : State)
    (data_row : List FractalSample) : Option (List FractalSample) :=
  fractalRowGo (fun z => z) y_cur x_incr state.max_iterations state.width 0 x_cur data_row

/-- Embedding of `julia_row` (src/mandelbrot.rs:98-105): identical walk,
but `mandelbrot_f` is called with the fixed Julia constant `c`. -/
def julia_row (x_cur y_cur x_incr : ℚ) (c : Complex64) (state : State)
    (data_row : List FractalSample) : Option (List FractalSample) :=
  fractalRowGo (fun _ => c) y_cur x_incr state.max_iterations state.width 0 x_cur data_row

/-- The `par_iter_mut().enumerate().for_each` dispatch of
`compute_mandelbrot`: apply the per-row computation `rowf` to each row,
passing its index (`entry.0`).  Rows are mutated independently in the
source; the traversal is modelled sequentially. -/
def rowsGo (rowf : ℕ → DataRow → Option DataRow) :
    ℕ → List DataRow → Option (List DataRow)
  | _, [] => some []
  | y, r :: rs =>
      match rowf y r with
      | none => none
      | some r' =>
          match rowsGo rowf (y + 1) rs with
          | none => none
          | some rs' => some (r' :: rs')

/-- Embedding of `compute_mandelbrot` (src/mandelbrot.rs:107-128): panic
(`none`) when `fractal_data.len() != state.height`; otherwise derive
`aspect`, the increments, the top-left starting coordinates
`y_cur = center.im + (scale/aspect)/2` and `x_cur = center.re - scale/2`,
and fill each row `y` at ordinate `y_cur - y * y_incr`, dispatching on the
fractal variant. -/
def compute_mandelbrot (fd : Data) : Option Data :=
  if fd.fractal_data.length ≠ fd.state.height then
    none
  else
    let aspect := fd.state.aspect
    let incrs := fd.state.increments
    let y_cur := fd.state.center.im + (fd.state.scale / aspect) / 2
    let x_cur := fd.state.center.re - fd.state.scale / 2
    match fd.state.fractal_type with
    | FractalType.Mandelbrot =>
        (rowsGo (fun y row =>
            mandelbrot_row x_cur (y_cur - (y : ℚ) * incrs.2) incrs.1 fd.state row)
          0 fd.fractal_data).map (fun g => ⟨fd.state, g⟩)
    | FractalType.Julia c =>
        (rowsGo (fun y row =>
            julia_row x_cur (y_cur - (y : ℚ) * incrs.2) incrs.1 c fd.state row)
          0 fd.fractal_data).map (fun g => ⟨fd.state, g⟩)

/-- The sample stored for grid row `y`, column `x` (row-major, row 0 at
the top), or `none` when out of bounds. -/
def sampleAt (d : Data) (y x : ℕ) : Option FractalSample :=
  (d.fractal_data[y]?).bind (fun row => row[x]?)

/-- Embedding of `egui::Color32` as used by the renderer: an opaque RGB
color (`Color32::from_rgb` stores three `u8` channels with alpha 255; the
claims only compare palette entries, so channels are plain naturals). -/
structure Color32 where
  r : ℕ
  g : ℕ
  b : ℕ
deriving DecidableEq, Repr

namespace Color32

/-- Embedding of `Color32::BLACK`, the fixed "inside the set" color. -/
def BLACK : Color32 := ⟨0, 0, 0⟩

end Color32

/-- Embedding of `PaletteData` (src/palette.rs:4): an ordered, finite sequence of colors. -/
abbrev PaletteData := List Color32

/-- Embedding of `ColorMode` (src/palette.rs:7-10). -/
inductive ColorMode where
  | LinearScale : ColorMode
  | Modulus : ColorMode
deriving DecidableEq, Repr

/-- The per-sample body of `render_image_linear` (src/main.rs:49-63):
if `entry.escape >= max_iterations`, the pixel is `Color32::BLACK`;
otherwise `val = (entry.escape as f64 * scale_factor) as usize` with
`scale_factor = (pal.len() - 1) as f64 / max_iterations as f64`, and the
pixel is `pal[val]`.  The `f64` product is exact in `ℚ` and the `as usize`
cast of the non-negative result is `Nat.floor`; `pal[val]` is `pal[val]?`
(`none` models the index panic).  `pal.len() - 1` is `usize` subtraction,
which agrees with `ℕ` subtraction whenever the palette is non-empty (the
source would wrap around on an empty palette; every claim assumes a
non-empty palette). -/
def pixelColorLinear (max_iterations : ℕ) (pal : PaletteData)
    (entry : FractalSample) : Option Color32 :=
  let scale_factor : ℚ := ((pal.length - 1 : ℕ) : ℚ) / (max_iterations : ℚ)
  if entry.escape ≥ max_iterations then
    some Color32.BLACK
  else
    pal[⌊(entry.escape : ℚ) * scale_factor⌋₊]?

/-- The per-sample body of `render_image_modulus` (src/main.rs:65-82):
if `entry.escape >= max_iterations`, the pixel is `Color32::BLACK`;
otherwise the pixel is `pal[entry.escape as usize % pal_len]`
(`pal_len = pal.len()`; `% 0` panics in Rust, and on a non-empty palette
the index is always in bounds). -/
def pixelColorModulus (max_iterations : ℕ) (pal : PaletteData)
    (entry : FractalSample) : Option Color32 :=
  if entry.escape ≥ max_iterations then
    some Color32.BLACK
  else
    if pal.length = 0 then none
    else pal[entry.escape % pal.length]?

/-- Embedding of `render_image_linear` over the whole grid: the source walks the rows
and their entries in row-major order, writing one pixel per sample into
the output buffer at consecutive offsets. -/
def render_image_linear (fractal : Data) (pal : PaletteData) :
    Option (List Color32) :=
  (fractal.fractal_data.flatten).mapM
    (pixelColorLinear fractal.state.max_iterations pal)

/-- Embedding of `render_image_modulus` over the whole grid, same row-major walk. -/
def render_image_modulus (fractal : Data) (pal : PaletteData) :
    Option (List Color32) :=
  (fractal.fractal_data.flatten).mapM
    (pixelColorModulus fractal.state.max_iterations pal)

/-- Selection of the constant `c` passed to `mandelbrot_f` for the sample
at plane point `z` (src/mandelbrot.rs:117-128 with 88-105): the
`Mandelbrot` arm sets `c = z`, the `Julia(c)` arm uses the fixed constant. -/
def cSelect (ft : FractalType) (z : Complex64) : Complex64 :=
  match ft with
  | FractalType.Mandelbrot => z
  | FractalType.Julia c => c

/-- The complex-plane point the engine evaluates for grid column `x`,
row `y` (the spec's pixel→plane mapping). -/
def pointAt (st : State) (x y : ℕ) : Complex64 :=
  ⟨st.center.re - st.scale / 2 + (x : ℚ) * (st.scale / (st.width : ℚ)),
   st.center.im + (st.scale / st.aspect) / 2
     - (y : ℚ) * ((st.scale / st.aspect) / (st.height : ℚ))⟩

/-! ## Lemmas about the escape-time loop -/

/-- With at least `max_iterations - i` units of fuel, the fuel-indexed loop
body computes exactly the exit state of the source's `while` loop. -/
theorem mandelbrotGo_eq_whileLoopGo (c : Complex64) (max_iterations : ℕ) :
    ∀ (fuel : ℕ) (z : Complex64) (i : ℕ), max_iterations ≤ i + fuel →
      mandelbrotGo c max_iterations fuel z i = whileLoopGo c max_iterations z i := by
  intro fuel
  induction fuel with
  | zero =>
      intro z i hfuel
      rw [whileLoopGo, mandelbrotGo]
      rw [dif_neg]
      intro h
      omega
  | succ n ih =>
      intro z i hfuel
      rw [whileLoopGo, mandelbrotGo]
      by_cases h : i < max_iterations ∧ normSq z < 4
      · rw [if_pos h, dif_pos h]
        exact ih (z * z + c) (i + 1) (by omega)
      · rw [if_neg h, dif_neg h]

/-- The function `mandelbrot_f` computes exactly the spec's while loop (even when
`cur_iterations > max_iterations`: both exit immediately). -/
theorem mandelbrot_f_eq_whileLoop (c z0 : Complex64)
    (cur_iterations max_iterations : ℕ) :
    mandelbrot_f c z0 cur_iterations max_iterations =
      whileLoop c z0 cur_iterations max_iterations :=
  mandelbrotGo_eq_whileLoopGo c max_iterations (max_iterations - cur_iterations)
    z0 cur_iterations (by omega)

/-- The loop never pushes the counter above `max_iterations` once it starts
at or below it. -/
theorem mandelbrotGo_escape_le (c : Complex64) (max_iterations : ℕ) :
    ∀ (fuel : ℕ) (z : Complex64) (i : ℕ), i ≤ max_iterations →
      (mandelbrotGo c max_iterations fuel z i).escape ≤ max_iterations := by
  intro fuel
  induction fuel with
  | zero => intro z i hi; exact hi
  | succ n ih =>
      intro z i hi
      rw [mandelbrotGo]
      by_cases h : i < max_iterations ∧ normSq z < 4
      · rw [if_pos h]
        exact ih (z * z + c) (i + 1) (by omega)
      · rw [if_neg h]
        exact hi

/-- With adequate fuel, an exit below `max_iterations` can only happen
because the escape test failed: the final `z` has `normSq ≥ 4`. -/
theorem mandelbrotGo_escape_lt (c : Complex64) (max_iterations : ℕ) :
    ∀ (fuel : ℕ) (z : Complex64) (i : ℕ), max_iterations ≤ i + fuel →
      (mandelbrotGo c max_iterations fuel z i).escape < max_iterations →
      4 ≤ normSq (mandelbrotGo c max_iterations fuel z i).z := by
  intro fuel
  induction fuel with
  | zero =>
      intro z i hfuel hesc
      exact absurd hesc (by simp [mandelbrotGo]; omega)
  | succ n ih =>
      intro z i hfuel
      rw [mandelbrotGo]
      by_cases h : i < max_iterations ∧ normSq z < 4
      · rw [if_pos h]
        exact ih (z * z + c) (i + 1) (by omega)
      · rw [if_neg h]
        intro hesc
        rcases not_and_or.mp h with h1 | h2
        · exact absurd hesc (by simpa using h1)
        · simpa using le_of_not_lt h2

/-- Conjugating both the constant and the starting value conjugates the
final `z` and leaves the escape count unchanged. -/
theorem mandelbrotGo_conj (c : Complex64) (max_iterations : ℕ) :
    ∀ (fuel : ℕ) (z : Complex64) (i : ℕ),
      mandelbrotGo (conj c) max_iterations fuel (conj z) i =
        ⟨conj (mandelbrotGo c max_iterations fuel z i).z,
         (mandelbrotGo c max_iterations fuel z i).escape⟩ := by
  intro fuel
  induction fuel with
  | zero => intro z i; rfl
  | succ n ih =>
      intro z i
      rw [mandelbrotGo, mandelbrotGo]
      by_cases h : i < max_iterations ∧ normSq z < 4
      · rw [if_pos h, if_pos (by rwa [Complex64.normSq_conj]),
          Complex64.conj_mul_add]
        exact ih (z * z + c) (i + 1)
      · rw [if_neg h, if_neg (by rwa [Complex64.normSq_conj])]

/-- Running `mandelbrot_f` with conjugated inputs: same escape, conjugated final
value. -/
theorem mandelbrot_f_conj (c z0 : Complex64) (cur max_iterations : ℕ) :
    mandelbrot_f (conj c) (conj z0) cur max_iterations =
      ⟨conj (mandelbrot_f c z0 cur max_iterations).z,
       (mandelbrot_f c z0 cur max_iterations).escape⟩ :=
  mandelbrotGo_conj c max_iterations (max_iterations - cur) z0 cur

/-! ## Lemmas about the row and grid loops -/

/-- Running the row loop for `n` more columns starting at index `x`
succeeds whenever the row is long enough, preserves the entries before
`x`, and writes, at each column `x + k`, the sample computed at abscissa
`x_cur + k * x_incr`. -/
theorem fractalRowGo_spec (cOf : Complex64 → Complex64) (y_cur x_incr : ℚ)
    (maxI : ℕ) :
    ∀ (n x : ℕ) (x_cur : ℚ) (row : List FractalSample),
      x + n ≤ row.length →
      ∃ row', fractalRowGo cOf y_cur x_incr maxI n x x_cur row = some row' ∧
        row'.length = row.length ∧
        (∀ j, j < x → row'[j]? = row[j]?) ∧
        (∀ k, k < n →
          row'[x + k]? =
            some (mandelbrot_f (cOf ⟨x_cur + (k : ℚ) * x_incr, y_cur⟩)
              ⟨x_cur + (k : ℚ) * x_incr, y_cur⟩ 0 maxI)) := by
  intro n
  induction n with
  | zero =>
      intro x x_cur row _
      exact ⟨row, rfl, rfl, fun _ _ => rfl, fun k hk => absurd hk (Nat.not_lt_zero k)⟩
  | succ n ih =>
      intro x x_cur row hlen
      have hx : x < row.length := by omega
      have hstep : fractalRowGo cOf y_cur x_incr maxI (n + 1) x x_cur row =
          fractalRowGo cOf y_cur x_incr maxI n (x + 1) (x_cur + x_incr)
            (row.set x (mandelbrot_f (cOf ⟨x_cur, y_cur⟩) ⟨x_cur, y_cur⟩ 0 maxI)) := by
        rw [fractalRowGo, writeAt, if_pos hx]
      obtain ⟨row', heq, hlen', hpre, hcomp⟩ :=
        ih (x + 1) (x_cur + x_incr)
          (row.set x (mandelbrot_f (cOf ⟨x_cur, y_cur⟩) ⟨x_cur, y_cur⟩ 0 maxI))
          (by rw [List.length_set]; omega)
      rw [List.length_set] at hlen'
      refine ⟨row', hstep.trans heq, hlen', ?_, ?_⟩
      · intro j hj
        rw [hpre j (by omega), List.getElem?_set_ne (by omega)]
      · intro k hk
        cases k with
        | zero =>
            have h0 : row'[x]? = (row.set x
                (mandelbrot_f (cOf ⟨x_cur, y_cur⟩) ⟨x_cur, y_cur⟩ 0 maxI))[x]? :=
              hpre x (by omega)
            rw [Nat.add_zero, h0, List.getElem?_set_self hx]
            norm_num
        | succ k =>
            have hidx : x + (k + 1) = (x + 1) + k := by omega
            have harith : x_cur + x_incr + (k : ℚ) * x_incr =
                x_cur + ((k : ℚ) + 1) * x_incr := by ring
            have hc := hcomp k (by omega)
            rw [harith] at hc
            rw [hidx, hc]
            push_cast
            norm_num

/-- Sequentially applying a per-row computation that succeeds on every
well-sized row: the traversal succeeds, keeps the grid's shape, and stores
`g y x` at row `y`, column `x`. -/
theorem rowsGo_spec (rowf : ℕ → DataRow → Option DataRow) (W : ℕ)
    (g : ℕ → ℕ → FractalSample)
    (hrowf : ∀ y row, row.length = W →
      ∃ row', rowf y row = some row' ∧ row'.length = W ∧
        ∀ x, x < W → row'[x]? = some (g y x)) :
    ∀ (rows : List DataRow) (y0 : ℕ), (∀ r ∈ rows, r.length = W) →
      ∃ grid, rowsGo rowf y0 rows = some grid ∧
        grid.length = rows.length ∧
        (∀ r ∈ grid, r.length = W) ∧
        (∀ k x, k < rows.length → x < W →
          grid[k]?.bind (fun r => r[x]?) = some (g (y0 + k) x)) := by
  intro rows
  induction rows with
  | nil =>
      intro y0 _
      exact ⟨[], rfl, rfl, fun r hr => absurd hr (List.not_mem_nil r),
        fun k _ hk _ => absurd hk (Nat.not_lt_zero k)⟩
  | cons r rs ih =>
      intro y0 hall
      obtain ⟨r', hr1, hr2, hr3⟩ :=
        hrowf y0 r (hall r (List.mem_cons_self r rs))
      obtain ⟨grid', hg1, hg2, hg3, hg4⟩ :=
        ih (y0 + 1) (fun r hm => hall r (List.mem_cons_of_mem _ hm))
      refine ⟨r' :: grid', ?_, by simp [hg2], ?_, ?_⟩
      · rw [rowsGo, hr1, hg1]
      · intro q hq
        rcases List.mem_cons.mp hq with h | h
        · exact h ▸ hr2
        · exact hg3 q h
      · intro k x hk hx
        cases k with
        | zero =>
            simp only [List.getElem?_cons_zero, Option.bind_some, Nat.add_zero]
            exact hr3 x hx
        | succ k =>
            have := hg4 k x (by simpa using hk) hx
            rw [List.getElem?_cons_succ]
            rw [show y0 + (k + 1) = (y0 + 1) + k by omega]
            exact this

/-- Master correctness lemma for `compute_mandelbrot`: on a grid whose
shape matches its configuration, the computation succeeds, keeps the
shape, and stores at row `y`, column `x` the escape-time sample of the
point `pointAt st x y`, with the constant chosen by the fractal variant. -/
theorem compute_mandelbrot_spec (fd : Data)
    (hlen : fd.fractal_data.length = fd.state.height)
    (hrows : ∀ r ∈ fd.fractal_data, r.length = fd.state.width) :
    ∃ d', compute_mandelbrot fd = some d' ∧ d'.state = fd.state ∧
      d'.fractal_data.length = fd.state.height ∧
      (∀ r ∈ d'.fractal_data, r.length = fd.state.width) ∧
      (∀ y x, y < fd.state.height → x < fd.state.width →
        sampleAt d' y x = some
          (mandelbrot_f (cSelect fd.state.fractal_type (pointAt fd.state x y))
            (pointAt fd.state x y) 0 fd.state.max_iterations)) := by
  set st := fd.state with hst
  have hrowf : ∀ (cOf : Complex64 → Complex64) (y_row : ℚ) (row : DataRow),
      row.length = st.width →
      ∃ row', fractalRowGo cOf y_row (st.increments.1) st.max_iterations
          st.width 0 (st.center.re - st.scale / 2) row = some row' ∧
        row'.length = st.width ∧
        ∀ x, x < st.width → row'[x]? = some
          (mandelbrot_f (cOf ⟨st.center.re - st.scale / 2 + (x : ℚ) * st.increments.1, y_row⟩)
            ⟨st.center.re - st.scale / 2 + (x : ℚ) * st.increments.1, y_row⟩ 0
            st.max_iterations) := by
    intro cOf y_row row hrl
    obtain ⟨row', h1, h2, _, h4⟩ :=
      fractalRowGo_spec cOf y_row (st.increments.1) st.max_iterations
        st.width 0 (st.center.re - st.scale / 2) row (by omega)
    refine ⟨row', h1, hrl ▸ h2, ?_⟩
    intro x hx
    have := h4 x hx
    rwa [Nat.zero_add] at this
  rcases hft : st.fractal_type with _ | c
  case Mandelbrot =>
    obtain ⟨grid, hg1, hg2, hg3, hg4⟩ :=
      rowsGo_spec
        (fun y row => mandelbrot_row (st.center.re - st.scale / 2)
          ((st.center.im + (st.scale / st.aspect) / 2) - (y : ℚ) * st.increments.2)
          st.increments.1 st row)
        st.width
        (fun y x => mandelbrot_f (pointAt st x y) (pointAt st x y) 0 st.max_iterations)
        (fun y row hrl => hrowf (fun z => z)
          ((st.center.im + (st.scale / st.aspect) / 2) - (y : ℚ) * st.increments.2)
          row hrl)
        fd.fractal_data 0 hrows
    refine ⟨⟨st, grid⟩, ?_, rfl, by rw [hg2, hlen], hg3, ?_⟩
    · rw [compute_mandelbrot, if_neg (by rw [hlen]; exact fun h => h rfl)]
      simp only [← hst, hft]
      rw [hg1]
      rfl
    · intro y x hy hx
      have h := hg4 y x (by rwa [hlen]) hx
      rw [Nat.zero_add] at h
      exact h
  case Julia =>
    obtain ⟨grid, hg1, hg2, hg3, hg4⟩ :=
      rowsGo_spec
        (fun y row => julia_row (st.center.re - st.scale / 2)
          ((st.center.im + (st.scale / st.aspect) / 2) - (y : ℚ) * st.increments.2)
          st.increments.1 c st row)
        st.width
        (fun y x => mandelbrot_f c (pointAt st x y) 0 st.max_iterations)
        (fun y row hrl => hrowf (fun _ => c)
          ((st.center.im + (st.scale / st.aspect) / 2) - (y : ℚ) * st.increments.2)
          row hrl)
        fd.fractal_data 0 hrows
    refine ⟨⟨st, grid⟩, ?_, rfl, by rw [hg2, hlen], hg3, ?_⟩
    · rw [compute_mandelbrot, if_neg (by rw [hlen]; exact fun h => h rfl)]
      simp only [← hst, hft]
      rw [hg1]
      rfl
    · intro y x hy hx
      have h := hg4 y x (by rwa [hlen]) hx
      rw [Nat.zero_add] at h
      exact h

/-! ## Shape of freshly allocated grids -/

/-- Inversion for `Data.new`: a successful construction yields exactly the
configured state and a `height × width` grid of zeroed samples. -/
theorem Data.new_eq_some {st : State} {d : Data} (h : Data.new st = some d) :
    d.state = st ∧
    d.fractal_data =
      List.replicate st.height (List.replicate st.width zeroSample) := by
  by_cases hc : st.width = 0 ∨ st.height = 0
  · rw [Data.new, if_pos hc] at h
    exact absurd h (by simp)
  · rw [Data.new, if_neg hc, Option.some_inj] at h
    rw [← h]
    exact ⟨rfl, rfl⟩

/-- Inversion for `Data.resize`, analogous to `Data.new_eq_some`. -/
theorem Data.resize_eq_some {d d' : Data} (h : Data.resize d = some d') :
    d'.state = d.state ∧
    d'.fractal_data =
      List.replicate d.state.height (List.replicate d.state.width zeroSample) := by
  by_cases hc : d.state.width = 0 ∨ d.state.height = 0
  · rw [Data.resize, if_pos hc] at h
    exact absurd h (by simp)
  · rw [Data.resize, if_neg hc, Option.some_inj] at h
    rw [← h]
    exact ⟨rfl, rfl⟩

/-- Shape facts of a replicate-built grid: row count and row lengths. -/
theorem replicate_grid_shape (H W : ℕ) :
    (List.replicate H (List.replicate W zeroSample)).length = H ∧
    ∀ r ∈ List.replicate H (List.replicate W zeroSample), r.length = W := by
  refine ⟨List.length_replicate H _, ?_⟩
  intro r hr
  rw [List.eq_of_mem_replicate hr]
  exact List.length_replicate W _

/-- A defined sample pins both indices inside the grid's bounds. -/
theorem sampleAt_some_bounds {d : Data} {W y x : ℕ} {s : FractalSample}
    (hrows : ∀ r ∈ d.fractal_data, r.length = W)
    (h : sampleAt d y x = some s) :
    y < d.fractal_data.length ∧ x < W := by
  rw [sampleAt] at h
  rcases Option.bind_eq_some.mp h with ⟨row, hrow, hx⟩
  rcases List.getElem?_eq_some_iff.mp hrow with ⟨hy, hrowval⟩
  rcases List.getElem?_eq_some_iff.mp hx with ⟨hxlt, _⟩
  refine ⟨hy, ?_⟩
  have hmem : row ∈ d.fractal_data := hrowval ▸ List.getElem_mem hy
  rw [hrows row hmem] at hxlt
  exact hxlt

/-! ## The claims -/

/-- C9: grid construction and resize fail (panic, modelled `none`) exactly
when `width == 0` or `height == 0`; on success they produce or replace the
grid with exactly `height` rows of `width` zeroed samples, the result of a
resize depends only on the configuration (no residual data), and a resize
followed by a compute yields a grid whose row count and row lengths match
the new configuration. -/
theorem data_new_resize_correct :
    (∀ st, Data.new st = none ↔ st.width = 0 ∨ st.height = 0) ∧
    (∀ d, Data.resize d = none ↔ d.state.width = 0 ∨ d.state.height = 0) ∧
    (∀ st d, Data.new st = some d →
      d.state = st ∧ d.fractal_data.length = st.height ∧
      ∀ r ∈ d.fractal_data, r = List.replicate st.width zeroSample) ∧
    (∀ d d', Data.resize d = some d' →
      d'.state = d.state ∧ d'.fractal_data.length = d.state.height ∧
      ∀ r ∈ d'.fractal_data, r = List.replicate d.state.width zeroSample) ∧
    (∀ d e, d.state = e.state → Data.resize d = Data.resize e) ∧
    (∀ d d' d'', Data.resize d = some d' → compute_mandelbrot d' = some d'' →
      d''.fractal_data.length = d.state.height ∧
      ∀ r ∈ d''.fractal_data, r.length = d.state.width) := by
  refine ⟨?_, ?_, ?_, ?_, ?_, ?_⟩
  · intro st
    by_cases hc : st.width = 0 ∨ st.height = 0
    · simp [Data.new, hc]
    · simp [Data.new, hc]
  · intro d
    by_cases hc : d.state.width = 0 ∨ d.state.height = 0
    · simp [Data.resize, hc]
    · simp [Data.resize, hc]
  · intro st d h
    obtain ⟨h1, h2⟩ := Data.new_eq_some h
    refine ⟨h1, ?_, ?_⟩
    · rw [h2]; exact List.length_replicate _ _
    · intro r hr
      rw [h2] at hr
      exact List.eq_of_mem_replicate hr
  · intro d d' h
    obtain ⟨h1, h2⟩ := Data.resize_eq_some h
    refine ⟨h1, ?_, ?_⟩
    · rw [h2]; exact List.length_replicate _ _
    · intro r hr
      rw [h2] at hr
      exact List.eq_of_mem_replicate hr
  · intro d e h
    rw [Data.resize, Data.resize, h]
  · intro d d' d'' hres hcomp
    obtain ⟨h1, h2⟩ := Data.resize_eq_some hres
    obtain ⟨hl, hr⟩ := replicate_grid_shape d.state.height d.state.width
    obtain ⟨e, he, _, helen, herows, _⟩ :=
      compute_mandelbrot_spec d' (by rw [h2, h1]; exact hl)
        (by rw [h2, h1]; exact hr)
    rw [hcomp, Option.some_inj] at he
    subst he
    rw [h1] at helen herows
    exact ⟨helen, herows⟩

/-- Witness for C9, at the concrete configuration `2 × 1` (and a degenerate
`0 × 1` for the failure direction): instantiates every conjunct. -/
theorem data_new_resize_correct_witness :
    (Data.new ⟨0, 1, 5, 1, ⟨0, 0⟩, FractalType.Mandelbrot⟩ = none ↔
      (0 : ℕ) = 0 ∨ (1 : ℕ) = 0) ∧
    (Data.new ⟨2, 1, 5, 1, ⟨0, 0⟩, FractalType.Mandelbrot⟩ = none ↔
      (2 : ℕ) = 0 ∨ (1 : ℕ) = 0) :=
  ⟨data_new_resize_correct.1 ⟨0, 1, 5, 1, ⟨0, 0⟩, FractalType.Mandelbrot⟩,
   data_new_resize_correct.1 ⟨2, 1, 5, 1, ⟨0, 0⟩, FractalType.Mandelbrot⟩⟩

/-- C10: every grid produced by `Data::new` or refreshed by `Data::resize`
has exactly `height` rows of `width` samples; under that invariant
`compute_mandelbrot` never hits its size-mismatch panic and every row
write is in bounds, so it returns a result (never `none`). -/
theorem compute_never_panics :
    (∀ st d, Data.new st = some d →
      d.fractal_data.length = d.state.height ∧
      ∀ r ∈ d.fractal_data, r.length = d.state.width) ∧
    (∀ d d', Data.resize d = some d' →
      d'.fractal_data.length = d'.state.height ∧
      ∀ r ∈ d'.fractal_data, r.length = d'.state.width) ∧
    (∀ d, d.fractal_data.length = d.state.height →
      (∀ r ∈ d.fractal_data, r.length = d.state.width) →
      (compute_mandelbrot d).isSome) := by
  refine ⟨?_, ?_, ?_⟩
  · intro st d h
    obtain ⟨h1, h2⟩ := Data.new_eq_some h
    obtain ⟨hl, hr⟩ := replicate_grid_shape st.height st.width
    rw [h1, h2]
    exact ⟨hl, hr⟩
  · intro d d' h
    obtain ⟨h1, h2⟩ := Data.resize_eq_some h
    obtain ⟨hl, hr⟩ := replicate_grid_shape d.state.height d.state.width
    rw [h1, h2]
    exact ⟨hl, hr⟩
  · intro d hlen hrows
    obtain ⟨d', hd', _⟩ := compute_mandelbrot_spec d hlen hrows
    rw [hd']
    rfl

/-- Witness for C10 on a concrete `1 × 2` grid: the fresh grid has the
invariant shape and `compute_mandelbrot` succeeds on it. -/
theorem compute_never_panics_witness :
    (compute_mandelbrot ⟨⟨1, 2, 1, 2, ⟨0, 0⟩, FractalType.Mandelbrot⟩,
      [[zeroSample], [zeroSample]]⟩).isSome :=
  compute_never_panics.2.2
    ⟨⟨1, 2, 1, 2, ⟨0, 0⟩, FractalType.Mandelbrot⟩, [[zeroSample], [zeroSample]]⟩
    (by decide) (by decide)

/-- C1: for `start_iter ≤ max_iter`, `mandelbrot_f(c, z0, start_iter,
max_iter)` returns exactly the sample produced by starting at `z = z0`,
`i = start_iter` and repeatedly applying `z ← z*z + c`, `i ← i+1` while
`i < max_iter` and `normSq z < 4` (the squared form of `|z| < 2`), with
`final_z` and `escape` the state at loop exit; the loop is bounded by
`max_iter` (the escape count never exceeds it), and termination is
witnessed by `whileLoop` being total. -/
theorem mandelbrot_f_matches_spec_loop (c z0 : Complex64)
    (start_iter max_iter : ℕ) (h : start_iter ≤ max_iter) :
    mandelbrot_f c z0 start_iter max_iter = whileLoop c z0 start_iter max_iter ∧
    (mandelbrot_f c z0 start_iter max_iter).escape ≤ max_iter :=
  ⟨mandelbrot_f_eq_whileLoop c z0 start_iter max_iter,
   mandelbrotGo_escape_le c max_iter (max_iter - start_iter) z0 start_iter h⟩

/-- Witness for C1 at the concrete input `c = 1 + i`, `z0 = 0`,
`start_iter = 0`, `max_iter = 2`. -/
theorem mandelbrot_f_matches_spec_loop_witness :
    mandelbrot_f ⟨1, 1⟩ ⟨0, 0⟩ 0 2 = whileLoop ⟨1, 1⟩ ⟨0, 0⟩ 0 2 ∧
    (mandelbrot_f ⟨1, 1⟩ ⟨0, 0⟩ 0 2).escape ≤ 2 :=
  mandelbrot_f_matches_spec_loop ⟨1, 1⟩ ⟨0, 0⟩ 0 2 (by decide)

/-- Concrete `1 × 2` Mandelbrot configuration used by several witnesses:
`scale = 2`, `center = 0`, `max_iterations = 1`. -/
def testState : State := ⟨1, 2, 1, 2, ⟨0, 0⟩, FractalType.Mandelbrot⟩

/-- The freshly allocated grid of `testState`. -/
def testData : Data := ⟨testState, [[zeroSample], [zeroSample]]⟩

/-- The computed grid of `testState`: row 0 is the point `-1 + 2i`
(already outside the escape radius, `escape = 0`), row 1 is the point
`-1 + 0i` (one iteration to `0`, `escape = 1`). -/
def testResult : Data := ⟨testState, [[⟨⟨-1, 2⟩, 0⟩], [⟨⟨0, 0⟩, 1⟩]]⟩

theorem testData_new : Data.new testState = some testData := by
  simp [Data.new, testState, testData, List.replicate]

theorem testResult_compute : compute_mandelbrot testData = some testResult := by
  norm_num [compute_mandelbrot, testState, testData, testResult, State.aspect,
    State.increments, rowsGo, mandelbrot_row, fractalRowGo, writeAt,
    mandelbrot_f, mandelbrotGo, zeroSample, Complex64.normSq]

/-- C2: for a valid configuration, the sample computed for grid row `y`,
column `x` (0-indexed, row 0 on top) is the escape-time iterator evaluated
at the plane point `re = center.re - scale/2 + x * (scale/width)`,
`im = center.im + (scale/aspect)/2 - y * ((scale/aspect)/height)`, with
`aspect = width/height` and `z0` that point. -/
theorem compute_pixel_mapping (st : State) (d d' : Data)
    (_hw : 0 < st.width) (_hh : 0 < st.height)
    (hnew : Data.new st = some d) (hcomp : compute_mandelbrot d = some d')
    (y x : ℕ) (hy : y < st.height) (hx : x < st.width) :
    ∃ c, sampleAt d' y x =
      some (mandelbrot_f c
        ⟨st.center.re - st.scale / 2 + (x : ℚ) * (st.scale / (st.width : ℚ)),
         st.center.im + (st.scale / st.aspect) / 2
           - (y : ℚ) * ((st.scale / st.aspect) / (st.height : ℚ))⟩
        0 st.max_iterations) := by
  obtain ⟨hstate, hgrid⟩ := Data.new_eq_some hnew
  obtain ⟨hl, hr⟩ := replicate_grid_shape st.height st.width
  obtain ⟨e, he, _, _, _, hsample⟩ :=
    compute_mandelbrot_spec d (by rw [hgrid, hstate]; exact hl)
      (by rw [hgrid, hstate]; exact hr)
  rw [hstate] at hsample
  rw [hcomp, Option.some_inj] at he
  subst he
  exact ⟨cSelect st.fractal_type (pointAt st x y), hsample y x hy hx⟩

/-- Witness for C2 on `testState` at cell `(x, y) = (0, 0)`. -/
theorem compute_pixel_mapping_witness :
    ∃ c, sampleAt testResult 0 0 =
      some (mandelbrot_f c
        ⟨testState.center.re - testState.scale / 2 +
            ((0 : ℕ) : ℚ) * (testState.scale / (testState.width : ℚ)),
         testState.center.im + (testState.scale / testState.aspect) / 2
           - ((0 : ℕ) : ℚ) * ((testState.scale / testState.aspect) / (testState.height : ℚ))⟩
        0 testState.max_iterations) :=
  compute_pixel_mapping testState testData testResult (by decide) (by decide)
    testData_new testResult_compute 0 0 (by decide) (by decide)

/-- C3: the two variants feed the same iterator with the same starting
point `z0 = pointAt st x y` and `start_iter = 0`, and differ only in the
constant: `c = z0` for Mandelbrot, the fixed Julia constant for Julia. -/
theorem compute_variant_constant (st : State) (d d' : Data)
    (_hw : 0 < st.width) (_hh : 0 < st.height)
    (hnew : Data.new st = some d) (hcomp : compute_mandelbrot d = some d')
    (y x : ℕ) (hy : y < st.height) (hx : x < st.width) :
    (st.fractal_type = FractalType.Mandelbrot →
      sampleAt d' y x = some (mandelbrot_f (pointAt st x y) (pointAt st x y)
        0 st.max_iterations)) ∧
    (∀ c, st.fractal_type = FractalType.Julia c →
      sampleAt d' y x = some (mandelbrot_f c (pointAt st x y)
        0 st.max_iterations)) := by
  obtain ⟨hstate, hgrid⟩ := Data.new_eq_some hnew
  obtain ⟨hl, hr⟩ := replicate_grid_shape st.height st.width
  obtain ⟨e, he, _, _, _, hsample⟩ :=
    compute_mandelbrot_spec d (by rw [hgrid, hstate]; exact hl)
      (by rw [hgrid, hstate]; exact hr)
  rw [hstate] at hsample
  rw [hcomp, Option.some_inj] at he
  subst he
  have hs := hsample y x hy hx
  constructor
  · intro hm
    rw [hm] at hs
    exact hs
  · intro c hj
    rw [hj] at hs
    exact hs

/-- Witness for C3 on `testState` (a Mandelbrot-variant configuration) at
cell `(x, y) = (0, 1)`. -/
theorem compute_variant_constant_witness :
    sampleAt testResult 1 0 = some (mandelbrot_f (pointAt testState 0 1)
      (pointAt testState 0 1) 0 testState.max_iterations) :=
  (compute_variant_constant testState testData testResult (by decide) (by decide)
    testData_new testResult_compute 1 0 (by decide) (by decide)).1 rfl

/-- C4: after a compute on a valid configuration, every stored sample has
`escape ≤ max_iterations`, and every sample with `escape < max_iterations`
left the loop because `normSq final_z ≥ 4`, i.e. `|final_z| ≥ 2`. -/
theorem samples_within_budget (st : State) (d d' : Data)
    (_hw : 0 < st.width) (_hh : 0 < st.height)
    (hnew : Data.new st = some d) (hcomp : compute_mandelbrot d = some d') :
    ∀ y x s, sampleAt d' y x = some s →
      s.escape ≤ st.max_iterations ∧
      (s.escape < st.max_iterations → 4 ≤ normSq s.z) := by
  obtain ⟨hstate, hgrid⟩ := Data.new_eq_some hnew
  obtain ⟨hl, hr⟩ := replicate_grid_shape st.height st.width
  obtain ⟨e, he, _, helen, herows, hsample⟩ :=
    compute_mandelbrot_spec d (by rw [hgrid, hstate]; exact hl)
      (by rw [hgrid, hstate]; exact hr)
  rw [hstate] at hsample helen herows
  rw [hcomp, Option.some_inj] at he
  subst he
  intro y x s hs
  obtain ⟨hy, hx⟩ := sampleAt_some_bounds herows hs
  rw [helen] at hy
  rw [hsample y x hy hx, Option.some_inj] at hs
  rw [← hs]
  constructor
  · exact mandelbrotGo_escape_le _ st.max_iterations st.max_iterations _ 0
      (Nat.zero_le _)
  · intro hlt
    exact mandelbrotGo_escape_lt _ st.max_iterations st.max_iterations _ 0
      (by omega) hlt

/-- Witness for C4 on `testState`: the sample stored at `(0, 0)` has
`escape = 0 < max_iterations = 1` and its final value `-1 + 2i` satisfies
`normSq ≥ 4`. -/
theorem samples_within_budget_witness :
    (⟨⟨-1, 2⟩, 0⟩ : FractalSample).escape ≤ testState.max_iterations ∧
    ((⟨⟨-1, 2⟩, 0⟩ : FractalSample).escape < testState.max_iterations →
      4 ≤ normSq (⟨⟨-1, 2⟩, 0⟩ : FractalSample).z) :=
  samples_within_budget testState testData testResult (by decide) (by decide)
    testData_new testResult_compute 0 0 ⟨⟨-1, 2⟩, 0⟩ rfl

@[simp] theorem cSelect_mandelbrot (z : Complex64) :
    cSelect FractalType.Mandelbrot z = z := rfl

@[simp] theorem cSelect_julia (c z : Complex64) :
    cSelect (FractalType.Julia c) z = c := rfl

/-- For a centered viewport, the point of row `height - y` is the complex
conjugate of the point of row `y` (`0 < y ≤ height`): the pixel rows sit
at ordinates `S/2 - y*(S/height)` with `S = scale/aspect`, and `y` and
`height - y` give opposite values. -/
theorem pointAt_mirror (st : State) (hcen : st.center = ⟨0, 0⟩)
    (hh : 0 < st.height) (x y : ℕ) (hy : y ≤ st.height) :
    pointAt st x (st.height - y) = conj (pointAt st x y) := by
  have hH : ((st.height : ℚ)) ≠ 0 := Nat.cast_ne_zero.mpr (by omega)
  apply Complex64.ext
  · rfl
  · show st.center.im + (st.scale / st.aspect) / 2
        - ((st.height - y : ℕ) : ℚ) * ((st.scale / st.aspect) / (st.height : ℚ))
      = -(st.center.im + (st.scale / st.aspect) / 2
        - (y : ℚ) * ((st.scale / st.aspect) / (st.height : ℚ)))
    rw [hcen]
    show (0 : ℚ) + (st.scale / st.aspect) / 2
        - ((st.height - y : ℕ) : ℚ) * ((st.scale / st.aspect) / (st.height : ℚ))
      = -((0 : ℚ) + (st.scale / st.aspect) / 2
        - (y : ℚ) * ((st.scale / st.aspect) / (st.height : ℚ)))
    rw [Nat.cast_sub hy]
    have key : ((st.height : ℚ)) * ((st.scale / st.aspect) / (st.height : ℚ))
        = st.scale / st.aspect := mul_div_cancel₀ _ hH
    linear_combination -key

/-- Counterexample to C6 as stated: on the valid centered Mandelbrot
configuration `testState` (`1 × 2` grid, `scale = 2`), the computed grid
is not mirror-symmetric about the horizontal midline: the sample at
`(x, y) = (0, 0)` differs from the sample at `(0, height - 1 - 0)`. -/
theorem grid_not_midline_symmetric :
    ¬ (∀ st d d', 0 < st.width → 0 < st.height →
        st.fractal_type = FractalType.Mandelbrot → st.center = ⟨0, 0⟩ →
        Data.new st = some d → compute_mandelbrot d = some d' →
        ∀ y x, y < st.height → x < st.width →
          sampleAt d' y x = sampleAt d' (st.height - 1 - y) x) := by
  intro h
  have hc := h testState testData testResult (by decide) (by decide) rfl rfl
    testData_new testResult_compute 0 0 (by decide) (by decide)
  rw [show testState.height - 1 - 0 = 1 from rfl] at hc
  have h0 : sampleAt testResult 0 0 = some ⟨⟨-1, 2⟩, 0⟩ := rfl
  have h1 : sampleAt testResult 1 0 = some ⟨⟨0, 0⟩, 1⟩ := rfl
  rw [h0, h1] at hc
  simp only [Option.some_inj] at hc
  exact absurd (congrArg FractalSample.escape hc) (by decide)

/-- C6 (amended): for a valid centered Mandelbrot configuration the grid
is mirror-symmetric about the real axis under the row map `y ↦ height - y`
(for rows `1 ≤ y < height`; row 0, at the top edge, has no mirror
partner because the vertical pixel offset places the rows at ordinates
`S/2 - y*(S/height)`): the mirrored sample has the same `escape` and the
conjugated `final_z`.  The stated map `y ↦ height - 1 - y` does not hold
(see the counterexample). -/
theorem grid_mirror_symmetry_amended (st : State) (d d' : Data)
    (hm : st.fractal_type = FractalType.Mandelbrot) (hcen : st.center = ⟨0, 0⟩)
    (_hw : 0 < st.width) (hh : 0 < st.height)
    (hnew : Data.new st = some d) (hcomp : compute_mandelbrot d = some d')
    (y x : ℕ) (hy1 : 1 ≤ y) (hy : y < st.height) (hx : x < st.width) :
    sampleAt d' (st.height - y) x =
      (sampleAt d' y x).map (fun s => ⟨conj s.z, s.escape⟩) := by
  obtain ⟨hstate, hgrid⟩ := Data.new_eq_some hnew
  obtain ⟨hl, hr⟩ := replicate_grid_shape st.height st.width
  obtain ⟨e, he, _, _, _, hsample⟩ :=
    compute_mandelbrot_spec d (by rw [hgrid, hstate]; exact hl)
      (by rw [hgrid, hstate]; exact hr)
  rw [hstate] at hsample
  rw [hcomp, Option.some_inj] at he
  subst he
  have h1 := hsample y x hy hx
  have h2 := hsample (st.height - y) x (by omega) hx
  rw [hm] at h1 h2
  simp only [cSelect_mandelbrot] at h1 h2
  rw [h1, h2, pointAt_mirror st hcen hh x y (le_of_lt hy), mandelbrot_f_conj,
    Option.map_some']

/-- Witness for the amended C6 on `testState` with `y = 1`. -/
theorem grid_mirror_symmetry_amended_witness :
    sampleAt testResult (testState.height - 1) 0 =
      (sampleAt testResult 1 0).map (fun s => ⟨conj s.z, s.escape⟩) :=
  grid_mirror_symmetry_amended testState testData testResult rfl rfl
    (by decide) (by decide) testData_new testResult_compute 1 0
    (by decide) (by decide) (by decide)

/-- A concrete two-entry palette used by the color-mapping witnesses. -/
def testPal : PaletteData := [⟨255, 0, 0⟩, ⟨0, 255, 0⟩]

/-- C5: under LinearScale mode, for a non-empty palette, a positive
iteration budget and an escaped sample (`escape < max_iterations`), the
color is the palette entry at `floor(escape * (palette.len()-1) /
max_iterations)` (the `f64` product `escape * scale_factor` truncated to
`usize` equals the exact natural-number division), and that index is in
bounds. -/
theorem linear_scale_color (pal : PaletteData) (max_iterations : ℕ)
    (s : FractalSample) (hpal : pal ≠ []) (hmax : 0 < max_iterations)
    (hesc : s.escape < max_iterations) :
    s.escape * (pal.length - 1) / max_iterations < pal.length ∧
    pixelColorLinear max_iterations pal s =
      pal[s.escape * (pal.length - 1) / max_iterations]? := by
  have hlen : 1 ≤ pal.length := List.length_pos.mpr hpal
  have hidx : s.escape * (pal.length - 1) / max_iterations < pal.length := by
    rw [Nat.div_lt_iff_lt_mul hmax]
    have h1 : s.escape * (pal.length - 1) ≤
        (max_iterations - 1) * (pal.length - 1) :=
      Nat.mul_le_mul_right _ (by omega)
    have h2 : ∀ M L : ℕ, 1 ≤ M → 1 ≤ L → (M - 1) * (L - 1) < L * M := by
      intro M L hM hL
      obtain ⟨m, rfl⟩ : ∃ m, M = m + 1 := ⟨M - 1, by omega⟩
      obtain ⟨l, rfl⟩ : ∃ l, L = l + 1 := ⟨L - 1, by omega⟩
      simp only [Nat.add_sub_cancel]
      have e1 : (l + 1) * (m + 1) = l * m + l + m + 1 := by ring
      have e2 : m * l = l * m := Nat.mul_comm m l
      linarith
    have h3 := h2 max_iterations pal.length hmax hlen
    omega
  have hfloor : ⌊(s.escape : ℚ) *
      (((pal.length - 1 : ℕ) : ℚ) / (max_iterations : ℚ))⌋₊ =
      s.escape * (pal.length - 1) / max_iterations := by
    have hc : (s.escape : ℚ) * (((pal.length - 1 : ℕ) : ℚ) / (max_iterations : ℚ))
        = ((s.escape * (pal.length - 1) : ℕ) : ℚ) / ((max_iterations : ℕ) : ℚ) := by
      push_cast
      ring
    rw [hc, Nat.floor_div_eq_div]
  refine ⟨hidx, ?_⟩
  simp only [pixelColorLinear, if_neg (by omega : ¬ s.escape ≥ max_iterations)]
  rw [hfloor]

/-- Witness for C5: palette of length 2, budget 3, `escape = 2`:
the index is `2 * 1 / 3 = 0`. -/
theorem linear_scale_color_witness :
    2 * (testPal.length - 1) / 3 < testPal.length ∧
    pixelColorLinear 3 testPal ⟨⟨0, 0⟩, 2⟩ =
      testPal[2 * (testPal.length - 1) / 3]? :=
  linear_scale_color testPal 3 ⟨⟨0, 0⟩, 2⟩ (by decide) (by decide) (by decide)

/-- C7: a sample with `escape ≥ max_iterations` is painted the fixed
inside-the-set color black, in both LinearScale and Modulus modes,
whatever the palette contains. -/
theorem inside_color_is_black (max_iterations : ℕ) (pal : PaletteData)
    (s : FractalSample) (h : s.escape ≥ max_iterations) :
    pixelColorLinear max_iterations pal s = some Color32.BLACK ∧
    pixelColorModulus max_iterations pal s = some Color32.BLACK := by
  constructor
  · simp only [pixelColorLinear, if_pos h]
  · simp only [pixelColorModulus, if_pos h]

/-- Witness for C7 at `escape = max_iterations = 2`, on the concrete
palette `testPal`. -/
theorem inside_color_is_black_witness :
    pixelColorLinear 2 testPal ⟨⟨0, 0⟩, 2⟩ = some Color32.BLACK ∧
    pixelColorModulus 2 testPal ⟨⟨0, 0⟩, 2⟩ = some Color32.BLACK :=
  inside_color_is_black 2 testPal ⟨⟨0, 0⟩, 2⟩ (by decide)

/-- C8: under Modulus mode, for a non-empty palette and `escape <
max_iterations`, the color is the palette entry at `escape mod
palette.len()`; in particular (whenever both inputs are below the budget)
`escape = palette.len()` is mapped to the same entry as `escape = 0`. -/
theorem modulus_color (max_iterations : ℕ) (pal : PaletteData)
    (hpal : pal ≠ []) :
    (∀ s, s.escape < max_iterations →
      pixelColorModulus max_iterations pal s = pal[s.escape % pal.length]?) ∧
    (∀ z z', pal.length < max_iterations →
      pixelColorModulus max_iterations pal ⟨z, pal.length⟩ =
        pixelColorModulus max_iterations pal ⟨z', 0⟩) := by
  have hlen : pal.length ≠ 0 := by simpa using hpal
  have hmain : ∀ s : FractalSample, s.escape < max_iterations →
      pixelColorModulus max_iterations pal s = pal[s.escape % pal.length]? := by
    intro s hs
    simp only [pixelColorModulus, if_neg (by omega : ¬ s.escape ≥ max_iterations),
      if_neg hlen]
  refine ⟨hmain, ?_⟩
  intro z z' hlm
  rw [hmain ⟨z, pal.length⟩ (by show pal.length < max_iterations; exact hlm),
    hmain ⟨z', 0⟩ (by show 0 < max_iterations; omega)]
  rw [show (⟨z, pal.length⟩ : FractalSample).escape = pal.length from rfl,
    show (⟨z', 0⟩ : FractalSample).escape = 0 from rfl,
    Nat.mod_self, Nat.zero_mod]

/-- Witness for C8 on `testPal` with budget 3: `escape = 2` maps to entry
`2 mod 2 = 0`, and `escape = palette.len() = 2` maps like `escape = 0`. -/
theorem modulus_color_witness :
    pixelColorModulus 3 testPal ⟨⟨0, 0⟩, 2⟩ = testPal[2 % testPal.length]? ∧
    pixelColorModulus 3 testPal ⟨⟨0, 0⟩, testPal.length⟩ =
      pixelColorModulus 3 testPal ⟨⟨1, 1⟩, 0⟩ :=
  ⟨(modulus_color 3 testPal (by decide)).1 ⟨⟨0, 0⟩, 2⟩ (by decide),
   (modulus_color 3 testPal (by decide)).2 ⟨0, 0⟩ ⟨1, 1⟩ (by decide)⟩
